import Mathlib

/-!
Verification of the SZ-DDFT parameter-scan pipeline
(`sz_ddft_phasediagram.py` scheduler/driver and `plot_sz_phasediagram.py`
aggregator).  Floating-point values are embedded as rationals; the
filesystem used for job coordination is embedded as a finite map from
job ids to optional result records.
-/

namespace SZScan

/-! ## Aggregator: end-time extraction (plot_sz_phasediagram.py lines 63-105) -/

/-- Survivor threshold constant of the aggregator (`THRESHOLD_SURVIVORS = 5e-2`). -/
def THRESHOLD_SURVIVORS : ℚ := 5 / 100

/-- Zombie threshold constant of the aggregator (`THRESHOLD_ZOMBIES = 5e-5`). -/
def THRESHOLD_ZOMBIES : ℚ := 5 / 100000

/-- `current_pop_initial = data["S"][0] + data["Z"][0]` (line 79). -/
def popInitial (S Z : List ℚ) : ℚ := S.headD 0 + Z.headD 0

/-- Target-series selection (lines 92-97): two sequential `if` statements with
strict `<` comparisons; the second (zombie) check overwrites the first when
both fire.  `none` models the case where neither assignment happens (in the
Python source `target_field` is then left unbound). -/
def selectTarget (S Z : List ℚ) (cpi thS thZ : ℚ) : Option (List ℚ × ℚ) :=
  let sel1 : Option (List ℚ × ℚ) :=
    if S.getLastD 0 / cpi < thS then some (S, thS) else none
  if Z.getLastD 0 / cpi < thZ then some (Z, thZ) else sel1

/-- Backward scan helper: largest index `j ≤ i` with `p j`, mirroring the
`while i >= 0` loop of lines 98-103 that walks `i` downward. -/
def findDown (p : ℕ → Bool) : ℕ → Option ℕ
  | 0 => if p 0 then some 0 else none
  | i + 1 => if p (i + 1) then some (i + 1) else findDown p i

inductive EndTime where
  | infinite : EndTime
  | fin : ℚ → EndTime
deriving DecidableEq

inductive ExtractError where
  | noTarget : ExtractError
  | endTimeNotFound : ExtractError
deriving DecidableEq

/-- Backward threshold-crossing scan of lines 98-104: `i` starts at
`len(t) - 2` and walks down to `0`; the first hit yields `end_idx = i + 1`
(so `t_end = t[i+1]`); falling off the bottom makes `assert(end_idx != None)`
fail fatally.  A trajectory with fewer than two samples never enters the
`while` body and hits the same assert. -/
def scanStage (tf : List ℚ) (th cpi : ℚ) (t : List ℚ) : Except ExtractError EndTime :=
  if t.length < 2 then Except.error ExtractError.endTimeNotFound
  else
    (findDown (fun j => decide (tf.getD j 0 / cpi > th)) (t.length - 2)).elim
      (Except.error ExtractError.endTimeNotFound)
      (fun i => Except.ok (EndTime.fin (t.getD (i + 1) 0)))

/-- End-time extraction for one run (lines 87-105): non-convergence check,
target-series selection, backward threshold scan.  `Except.ok
EndTime.infinite` models the reported (non-fatal) `np.infty` case;
`Except.error` models the fatal aborts (the failing assert, resp. the unbound
`target_field`). -/
def extractEndTime (S Z t : List ℚ) (thS thZ : ℚ) : Except ExtractError EndTime :=
  let cpi := popInitial S Z
  if S.getLastD 0 / cpi > thS ∧ Z.getLastD 0 / cpi > thZ then
    Except.ok EndTime.infinite
  else
    (selectTarget S Z cpi thS thZ).elim (Except.error ExtractError.noTarget)
      (fun sel => scanStage sel.1 sel.2 cpi t)

lemma findDown_eq_some_iff (p : ℕ → Bool) (i j : ℕ) :
    findDown p i = some j ↔ p j = true ∧ j ≤ i ∧ ∀ k, j < k → k ≤ i → p k = false := by
  induction i with
  | zero =>
    constructor
    · intro h
      by_cases h0 : p 0 = true
      · rw [findDown, if_pos h0] at h
        obtain rfl : j = 0 := (Option.some_inj.mp h).symm
        exact ⟨h0, le_refl 0, fun k hk1 hk2 => absurd hk1 (by omega)⟩
      · rw [findDown, if_neg h0] at h
        exact absurd h (by simp)
    · rintro ⟨hpj, hj0, _⟩
      obtain rfl : j = 0 := Nat.le_zero.mp hj0
      rw [findDown, if_pos hpj]
  | succ i ih =>
    constructor
    · intro h
      by_cases hs : p (i + 1) = true
      · rw [findDown, if_pos hs] at h
        obtain rfl : j = i + 1 := (Option.some_inj.mp h).symm
        exact ⟨hs, le_refl _, fun k hk1 hk2 => absurd hk1 (by omega)⟩
      · rw [findDown, if_neg hs] at h
        obtain ⟨hpj, hji, hall⟩ := ih.mp h
        refine ⟨hpj, Nat.le_succ_of_le hji, ?_⟩
        intro k hk1 hk2
        by_cases hki : k ≤ i
        · exact hall k hk1 hki
        · have hk : k = i + 1 := by omega
          rw [hk]
          exact Bool.eq_false_iff.mpr hs
    · rintro ⟨hpj, hji, hall⟩
      by_cases hs : p (i + 1) = true
      · have hj : j = i + 1 := by
          by_contra hne
          have hfalse := hall (i + 1) (by omega) (le_refl _)
          rw [hfalse] at hs
          exact absurd hs (by simp)
        subst hj
        rw [findDown, if_pos hs]
      · have hne : j ≠ i + 1 := fun he => hs (he ▸ hpj)
        have hji2 : j ≤ i := by omega
        rw [findDown, if_neg hs]
        exact ih.mpr ⟨hpj, hji2, fun k hk1 hk2 => hall k hk1 (Nat.le_succ_of_le hk2)⟩

lemma findDown_eq_none_iff (p : ℕ → Bool) (i : ℕ) :
    findDown p i = none ↔ ∀ j, j ≤ i → p j = false := by
  induction i with
  | zero =>
    constructor
    · intro h j hj
      obtain rfl : j = 0 := Nat.le_zero.mp hj
      by_cases h0 : p 0 = true
      · rw [findDown, if_pos h0] at h
        exact absurd h (by simp)
      · exact Bool.eq_false_iff.mpr h0
    · intro hall
      rw [findDown, if_neg (by simp [hall 0 (le_refl 0)])]
  | succ i ih =>
    constructor
    · intro h
      by_cases hs : p (i + 1) = true
      · rw [findDown, if_pos hs] at h
        exact absurd h (by simp)
      · rw [findDown, if_neg hs] at h
        intro j hj
        by_cases hji : j ≤ i
        · exact (ih.mp h) j hji
        · have hk : j = i + 1 := by omega
          rw [hk]
          exact Bool.eq_false_iff.mpr hs
    · intro hall
      rw [findDown, if_neg (by simp [hall (i + 1) (le_refl _)])]
      exact ih.mpr (fun j hj => hall j (Nat.le_succ_of_le hj))

lemma selectTarget_some_not_both (S Z : List ℚ) (cpi thS thZ : ℚ) (tf : List ℚ) (th : ℚ)
    (h : selectTarget S Z cpi thS thZ = some (tf, th)) :
    ¬ (S.getLastD 0 / cpi > thS ∧ Z.getLastD 0 / cpi > thZ) := by
  rintro ⟨hS, hZ⟩
  simp only [selectTarget] at h
  rw [if_neg (asymm hZ), if_neg (asymm hS)] at h
  exact absurd h (by simp)

/-- C1: end-time extraction: when both final fractions stay above their
thresholds the result is `+∞` reported as a success; otherwise, once a target
series and threshold are selected, the backward scan from index
`t.length - 2` yields `t[i+1]` for the largest index `i` still above the
threshold, and aborts fatally (`EndTimeNotFound`) when no index down to `0`
is above it. -/
theorem claim_C1_end_time_extraction (S Z t : List ℚ) (thS thZ : ℚ) :
    (S.getLastD 0 / popInitial S Z > thS → Z.getLastD 0 / popInitial S Z > thZ →
      extractEndTime S Z t thS thZ = Except.ok EndTime.infinite)
    ∧ (∀ tf th, selectTarget S Z (popInitial S Z) thS thZ = some (tf, th) →
        2 ≤ t.length →
        ((∀ j, j ≤ t.length - 2 → tf.getD j 0 / popInitial S Z ≤ th) →
          extractEndTime S Z t thS thZ = Except.error ExtractError.endTimeNotFound)
        ∧ (∀ i, i ≤ t.length - 2 → tf.getD i 0 / popInitial S Z > th →
            (∀ k, k ≤ t.length - 2 → i < k → tf.getD k 0 / popInitial S Z ≤ th) →
            extractEndTime S Z t thS thZ = Except.ok (EndTime.fin (t.getD (i + 1) 0)))) := by
  constructor
  · intro h1 h2
    simp only [extractEndTime]
    rw [if_pos ⟨h1, h2⟩]
  · intro tf th hsel hlen
    have hnot := selectTarget_some_not_both S Z (popInitial S Z) thS thZ tf th hsel
    have hlen2 : ¬ t.length < 2 := not_lt.mpr hlen
    have hstage : extractEndTime S Z t thS thZ = scanStage tf th (popInitial S Z) t := by
      simp only [extractEndTime]
      rw [if_neg hnot, hsel]
      rfl
    constructor
    · intro hall
      have hfd : findDown (fun j => decide (tf.getD j 0 / popInitial S Z > th))
          (t.length - 2) = none := by
        rw [findDown_eq_none_iff]
        intro j hj
        exact decide_eq_false (not_lt.mpr (hall j hj))
      rw [hstage]
      simp only [scanStage]
      rw [if_neg hlen2, hfd]
      rfl
    · intro i hi hgt hafter
      have hfd : findDown (fun j => decide (tf.getD j 0 / popInitial S Z > th))
          (t.length - 2) = some i := by
        rw [findDown_eq_some_iff]
        refine ⟨decide_eq_true hgt, hi, ?_⟩
        intro k hk1 hk2
        exact decide_eq_false (not_lt.mpr (hafter k hk2 hk1))
      rw [hstage]
      simp only [scanStage]
      rw [if_neg hlen2, hfd]
      rfl

/-- C1 witness: the spec example `S/initial_total = [1.0, 0.9, 0.5, 0.04, 0.01]`
with `θ_S = 0.05` gives `t_end = t[3]`. -/
theorem claim_C1_witness :
    extractEndTime [1, 9/10, 1/2, 1/25, 1/100] [0, 0, 0, 0, 1/2] [0, 1, 2, 3, 4]
      THRESHOLD_SURVIVORS THRESHOLD_ZOMBIES = Except.ok (EndTime.fin 3) := by
  have hsel : selectTarget [1, 9/10, 1/2, 1/25, 1/100] [0, 0, 0, 0, 1/2]
      (popInitial [1, 9/10, 1/2, 1/25, 1/100] [0, 0, 0, 0, 1/2])
      THRESHOLD_SURVIVORS THRESHOLD_ZOMBIES
      = some ([1, 9/10, 1/2, 1/25, 1/100], THRESHOLD_SURVIVORS) := by
    norm_num [selectTarget, popInitial, THRESHOLD_SURVIVORS, THRESHOLD_ZOMBIES]
  have h := ((claim_C1_end_time_extraction [1, 9/10, 1/2, 1/25, 1/100] [0, 0, 0, 0, 1/2]
      [0, 1, 2, 3, 4] THRESHOLD_SURVIVORS THRESHOLD_ZOMBIES).2
      _ _ hsel (by norm_num)).2 2 (by norm_num)
      (by norm_num [popInitial, THRESHOLD_SURVIVORS])
      (by
        intro k hk1 hk2
        simp only [List.length_cons, List.length_nil] at hk1
        obtain rfl : k = 3 := by omega
        norm_num [popInitial, THRESHOLD_SURVIVORS])
  exact h.trans (by norm_num)

/-- C5 counterexample: when the final survivor fraction equals `θ_S` exactly
(and the zombie fraction stays above `θ_Z`), the non-convergence test fails
but neither strict `<` selection fires: no target series is selected and the
extraction aborts, contradicting the claim that a target is always selected. -/
theorem claim_C5_counterexample :
    ¬ (([1, 1/20] : List ℚ).getLastD 0 / popInitial [1, 1/20] [0, 1/2] > THRESHOLD_SURVIVORS
        ∧ ([0, 1/2] : List ℚ).getLastD 0 / popInitial [1, 1/20] [0, 1/2] > THRESHOLD_ZOMBIES)
    ∧ ([1, 1/20] : List ℚ).getLastD 0 / popInitial [1, 1/20] [0, 1/2] ≤ THRESHOLD_SURVIVORS
    ∧ selectTarget [1, 1/20] [0, 1/2] (popInitial [1, 1/20] [0, 1/2])
        THRESHOLD_SURVIVORS THRESHOLD_ZOMBIES = none
    ∧ extractEndTime [1, 1/20] [0, 1/2] [0, 1] THRESHOLD_SURVIVORS THRESHOLD_ZOMBIES
        = Except.error ExtractError.noTarget := by
  refine ⟨?_, ?_, ?_, ?_⟩
  · norm_num [popInitial, THRESHOLD_SURVIVORS, THRESHOLD_ZOMBIES]
  · norm_num [popInitial, THRESHOLD_SURVIVORS]
  · norm_num [selectTarget, popInitial, THRESHOLD_SURVIVORS, THRESHOLD_ZOMBIES]
  · norm_num [extractEndTime, selectTarget, popInitial,
      THRESHOLD_SURVIVORS, THRESHOLD_ZOMBIES]

/-- C5 amended: a target series is selected iff at least one final fraction is
strictly below its threshold (S checked first, the Z check overwriting);
exact threshold equality selects nothing.  Whenever a target is selected its
normalized final value is `≤` (indeed `<`) its threshold. -/
theorem claim_C5_amended (S Z : List ℚ) (cpi thS thZ : ℚ) :
    ((selectTarget S Z cpi thS thZ).isSome ↔
      S.getLastD 0 / cpi < thS ∨ Z.getLastD 0 / cpi < thZ)
    ∧ (Z.getLastD 0 / cpi < thZ → selectTarget S Z cpi thS thZ = some (Z, thZ))
    ∧ (¬ Z.getLastD 0 / cpi < thZ → S.getLastD 0 / cpi < thS →
        selectTarget S Z cpi thS thZ = some (S, thS))
    ∧ (∀ tf th, selectTarget S Z cpi thS thZ = some (tf, th) →
        tf.getLastD 0 / cpi ≤ th) := by
  refine ⟨?_, ?_, ?_, ?_⟩
  · simp only [selectTarget]
    by_cases hZ : Z.getLastD 0 / cpi < thZ
    · rw [if_pos hZ]
      exact iff_of_true rfl (Or.inr hZ)
    · rw [if_neg hZ]
      by_cases hS : S.getLastD 0 / cpi < thS
      · rw [if_pos hS]
        exact iff_of_true rfl (Or.inl hS)
      · rw [if_neg hS]
        exact iff_of_false (by simp) (fun h => h.elim hS hZ)
  · intro hZ
    simp only [selectTarget]
    rw [if_pos hZ]
  · intro hZ hS
    simp only [selectTarget]
    rw [if_neg hZ, if_pos hS]
  · intro tf th hsel
    simp only [selectTarget] at hsel
    by_cases hZ : Z.getLastD 0 / cpi < thZ
    · rw [if_pos hZ] at hsel
      have hp := Option.some_inj.mp hsel
      obtain ⟨rfl, rfl⟩ := Prod.ext_iff.mp hp.symm
      exact le_of_lt hZ
    · rw [if_neg hZ] at hsel
      by_cases hS : S.getLastD 0 / cpi < thS
      · rw [if_pos hS] at hsel
        have hp := Option.some_inj.mp hsel
        obtain ⟨rfl, rfl⟩ := Prod.ext_iff.mp hp.symm
        exact le_of_lt hS
      · rw [if_neg hS] at hsel
        exact absurd hsel (by simp)

/-- C5 amended witness: a strict breach of the survivor threshold selects the
survivor series, whose normalized final value is below its threshold. -/
theorem claim_C5_witness :
    selectTarget [1, 1/100] [0, 1/2] 1 (1/20) (1/20000) = some ([1, 1/100], 1/20)
    ∧ ([1, 1/100] : List ℚ).getLastD 0 / 1 ≤ 1/20 := by
  have h := claim_C5_amended [1, 1/100] [0, 1/2] 1 (1/20) (1/20000)
  have hsel := h.2.2.1 (by norm_num) (by norm_num)
  exact ⟨hsel, h.2.2.2 _ _ hsel⟩

/-! ## Aggregator: nearest-match grid assignment (plot_sz_phasediagram.py lines 72-77) -/

/-- First index of the minimum of a list (`np.argmin` semantics: ties broken
towards the smallest index); `0` on the empty list. -/
def argminList : List ℚ → ℕ
  | [] => 0
  | [_] => 0
  | a :: b :: rest =>
    let j := argminList (b :: rest)
    if (b :: rest).getD j 0 < a then j + 1 else 0

/-- `np.argmin(np.abs(grid - x))` (lines 73-74). -/
def argminAbs (grid : List ℚ) (x : ℚ) : ℕ := argminList (grid.map (fun g => |g - x|))

/-- One persisted run result (`{job_id}.npz`): trajectory `t`, total
populations `S`, `Z`, and the run's own parameters (`kill_parameter`,
`fear_amplitude`). -/
structure RunRes where
  t : List ℚ
  S : List ℚ
  Z : List ℚ
  kill : ℚ
  fear : ℚ
deriving DecidableEq

/-- Grid cell a result is assigned to: `(kill_index, fear_index)`. -/
def cellOf (kills fears : List ℚ) (r : RunRes) : ℕ × ℕ :=
  (argminAbs kills r.kill, argminAbs fears r.fear)

lemma argminList_lt_length (l : List ℚ) (h : l ≠ []) : argminList l < l.length := by
  induction l with
  | nil => exact absurd rfl h
  | cons a l ih =>
    cases l with
    | nil => simp [argminList]
    | cons b rest =>
      have hbr : b :: rest ≠ [] := by simp
      have hj := ih hbr
      simp only [argminList]
      by_cases hc : (b :: rest).getD (argminList (b :: rest)) 0 < a
      · rw [if_pos hc]
        simpa using Nat.succ_lt_succ hj
      · rw [if_neg hc]
        simp

lemma argminList_min (l : List ℚ) (k : ℕ) (hk : k < l.length) :
    l.getD (argminList l) 0 ≤ l.getD k 0 := by
  induction l generalizing k with
  | nil => simp at hk
  | cons a l ih =>
    cases l with
    | nil =>
      have : k = 0 := by simpa using Nat.lt_one_iff.mp (by simpa using hk)
      subst this
      simp [argminList]
    | cons b rest =>
      simp only [argminList]
      by_cases hc : (b :: rest).getD (argminList (b :: rest)) 0 < a
      · rw [if_pos hc]
        cases k with
        | zero =>
          simpa using le_of_lt hc
        | succ k2 =>
          have hk2 : k2 < (b :: rest).length := by simpa using Nat.lt_of_succ_lt_succ hk
          simpa using ih k2 hk2
      · rw [if_neg hc]
        cases k with
        | zero => simp
        | succ k2 =>
          have hk2 : k2 < (b :: rest).length := by simpa using Nat.lt_of_succ_lt_succ hk
          have h1 : a ≤ (b :: rest).getD (argminList (b :: rest)) 0 := not_lt.mp hc
          simpa using le_trans h1 (ih k2 hk2)

lemma argminAbs_lt_length (grid : List ℚ) (x : ℚ) (h : grid ≠ []) :
    argminAbs grid x < grid.length := by
  have hmap : grid.map (fun g => |g - x|) ≠ [] := by
    simpa using h
  have := argminList_lt_length (grid.map (fun g => |g - x|)) hmap
  simpa [argminAbs] using this

lemma argminAbs_min (grid : List ℚ) (x : ℚ) (h : grid ≠ []) (j : ℕ)
    (hj : j < grid.length) :
    |grid.getD (argminAbs grid x) 0 - x| ≤ |grid.getD j 0 - x| := by
  have hlen : (grid.map (fun g => |g - x|)).length = grid.length := by simp
  have hi : argminAbs grid x < grid.length := argminAbs_lt_length grid x h
  have hmin := argminList_min (grid.map (fun g => |g - x|)) j (by simpa [hlen] using hj)
  have egd : ∀ m, m < grid.length →
      (grid.map (fun g => |g - x|)).getD m 0 = |grid.getD m 0 - x| := by
    intro m hm
    rw [List.getD_eq_getElem _ _ (by simpa [hlen] using hm), List.getElem_map,
      List.getD_eq_getElem _ _ hm]
  rw [argminAbs] at hi ⊢
  rw [egd _ hi, egd _ hj] at hmin
  exact hmin

/-- C2: for every loaded result the aggregator assigns cell
`(kill_index, fear_index)` where each index minimizes the absolute distance
of the stored parameter to the grid values; the example result with
`kill_rate = 4.00001` and `fear_amplitude = 20` on grids `[4,5]`/`[10,20]`
lands in cell `(0,1)` instead of being rejected. -/
theorem claim_C2_nearest_match :
    (∀ (kills fears : List ℚ) (r : RunRes), kills ≠ [] → fears ≠ [] →
      (cellOf kills fears r).1 < kills.length ∧ (cellOf kills fears r).2 < fears.length ∧
      (∀ j, j < kills.length →
        |kills.getD (cellOf kills fears r).1 0 - r.kill| ≤ |kills.getD j 0 - r.kill|) ∧
      (∀ j, j < fears.length →
        |fears.getD (cellOf kills fears r).2 0 - r.fear| ≤ |fears.getD j 0 - r.fear|))
    ∧ cellOf [4, 5] [10, 20] ⟨[], [], [], 400001/100000, 20⟩ = (0, 1) := by
  constructor
  · intro kills fears r hk hf
    exact ⟨argminAbs_lt_length kills r.kill hk, argminAbs_lt_length fears r.fear hf,
      fun j hj => argminAbs_min kills r.kill hk j hj,
      fun j hj => argminAbs_min fears r.fear hf j hj⟩
  · have e1 : |(4:ℚ) - 400001/100000| = 1/100000 := by
      rw [abs_of_nonpos (by norm_num)]
      norm_num
    have e2 : |(5:ℚ) - 400001/100000| = 99999/100000 := by
      rw [abs_of_nonneg (by norm_num)]
      norm_num
    have e3 : |(10:ℚ) - 20| = 10 := by
      rw [abs_of_nonpos (by norm_num)]
      norm_num
    have e4 : |(20:ℚ) - 20| = 0 := by norm_num
    simp only [cellOf, argminAbs, List.map_cons, List.map_nil, e1, e2, e3, e4]
    norm_num [argminList]

/-- C2 witness: the general nearest-match bound applied to the example grids
and perturbed result. -/
theorem claim_C2_witness :
    |([4, 5] : List ℚ).getD (cellOf [4, 5] [10, 20] ⟨[], [], [], 400001/100000, 20⟩).1 0
        - 400001/100000|
      ≤ |([4, 5] : List ℚ).getD 1 0 - 400001/100000| := by
  exact (claim_C2_nearest_match.1 [4, 5] [10, 20] ⟨[], [], [], 400001/100000, 20⟩
    (by simp) (by simp)).2.2.1 1 (by norm_num)

/-! ## Aggregator: result fold, collision asserts, output emission -/

/-- Derived values stored in one grid cell (`pop_initial`, `S_final`,
`Z_final`, `t_end`; lines 79-82 and 105). -/
structure CellVal where
  popInit : ℚ
  Sfin : ℚ
  Zfin : ℚ
  tEnd : EndTime
deriving DecidableEq

/-- The phase-diagram buffers; `none` models the initial `NaN` cells. -/
def Grid : Type := ℕ × ℕ → Option CellVal

def emptyGrid : Grid := fun _ => none

def setCell (g : Grid) (c : ℕ × ℕ) (v : CellVal) : Grid :=
  fun c2 => if c2 = c then some v else g c2

inductive AggError where
  | collision : ℕ × ℕ → AggError
  | extraction : ExtractError → AggError
deriving DecidableEq

/-- Loop body for one result file (lines 67-105): nearest-match cell, the
collision asserts on `S_final`/`Z_final` (lines 76-77), then population
fields and end-time extraction.  In the script the process dies on a failing
assert, modelled as `Except.error`; the figure is only written after the
whole loop finishes. -/
def processOne (kills fears : List ℚ) (g : Grid) (r : RunRes) : Except AggError Grid :=
  let c := cellOf kills fears r
  if (g c).isSome then Except.error (AggError.collision c)
  else
    Except.mapError AggError.extraction
      ((extractEndTime r.S r.Z r.t THRESHOLD_SURVIVORS THRESHOLD_ZOMBIES).map
        (fun te => setCell g c ⟨popInitial r.S r.Z, r.S.getLastD 0, r.Z.getLastD 0, te⟩))

/-- The `for job_id in jobs_parameters` loop (line 67) over the results that
are present, threaded through the grid state. -/
def aggFrom (kills fears : List ℚ) : List RunRes → Grid → Except AggError Grid
  | [], g => Except.ok g
  | r :: rs, g => (processOne kills fears g r).bind (aggFrom kills fears rs)

def aggregate (kills fears : List ℚ) (rs : List RunRes) : Except AggError Grid :=
  aggFrom kills fears rs emptyGrid

/-- The emitted output (the saved figure data): produced only when the whole
aggregation pass succeeds, since `fig.savefig` is the last statement of the
script and any assert abort precedes it. -/
def aggregateEmit (kills fears : List ℚ) (rs : List RunRes) : Option Grid :=
  (aggregate kills fears rs).toOption

lemma processOne_ok (kills fears : List ℚ) (g : Grid) (r : RunRes) (g2 : Grid)
    (h : processOne kills fears g r = Except.ok g2) :
    g (cellOf kills fears r) = none
    ∧ (g2 (cellOf kills fears r)).isSome = true
    ∧ ∀ c2, c2 ≠ cellOf kills fears r → g2 c2 = g c2 := by
  simp only [processOne] at h
  by_cases hc : (g (cellOf kills fears r)).isSome
  · rw [if_pos hc] at h
    exact absurd h (by simp)
  · rw [if_neg hc] at h
    cases hex : extractEndTime r.S r.Z r.t THRESHOLD_SURVIVORS THRESHOLD_ZOMBIES with
    | error e =>
      rw [hex] at h
      exact absurd h (by simp [Except.map, Except.mapError])
    | ok te =>
      rw [hex] at h
      simp only [Except.map, Except.mapError, Except.ok.injEq] at h
      subst h
      refine ⟨Option.not_isSome_iff_eq_none.mp hc, ?_, ?_⟩
      · simp [setCell]
      · intro c2 hc2
        simp [setCell, hc2]

lemma aggFrom_ok_cells (kills fears : List ℚ) (rs : List RunRes) (g2 : Grid) :
    ∀ g : Grid, aggFrom kills fears rs g = Except.ok g2 →
    List.Pairwise (fun a b => cellOf kills fears a ≠ cellOf kills fears b) rs
    ∧ ∀ r ∈ rs, g (cellOf kills fears r) = none := by
  induction rs with
  | nil => exact fun g _ => ⟨List.Pairwise.nil, by simp⟩
  | cons r rs ih =>
    intro g h
    rw [aggFrom] at h
    cases hp : processOne kills fears g r with
    | error e =>
      rw [hp] at h
      exact absurd h (by simp [Except.bind])
    | ok g1 =>
      rw [hp] at h
      have h2 : aggFrom kills fears rs g1 = Except.ok g2 := h
      obtain ⟨hpair, hnone⟩ := ih g1 h2
      obtain ⟨hg_none, hg1_some, hg1_other⟩ := processOne_ok kills fears g r g1 hp
      constructor
      · refine List.Pairwise.cons ?_ hpair
        intro b hb hbeq
        have hb_none := hnone b hb
        rw [← hbeq] at hb_none
        rw [hb_none] at hg1_some
        exact absurd hg1_some (by simp)
      · intro b hb
        rcases List.mem_cons.mp hb with rfl | hb2
        · exact hg_none
        · have h3 := hnone b hb2
          by_cases hcb : cellOf kills fears b = cellOf kills fears r
          · rw [hcb]
            exact hg_none
          · rw [← hg1_other _ hcb]
            exact h3

/-- C9: a result whose nearest-match target cell is already assigned makes
the pass fail with the collision error (never a silent overwrite); a
successful aggregation implies all results occupy pairwise distinct cells;
and when two results map to the same cell no output grid is emitted at all
(all-or-nothing emission). -/
theorem claim_C9_collision (kills fears : List ℚ) (rs : List RunRes) :
    (∀ (g : Grid) (r : RunRes), (g (cellOf kills fears r)).isSome = true →
      processOne kills fears g r = Except.error (AggError.collision (cellOf kills fears r)))
    ∧ (∀ g, aggregate kills fears rs = Except.ok g →
        ∀ i j : Fin rs.length, i ≠ j →
          cellOf kills fears (rs.get i) ≠ cellOf kills fears (rs.get j))
    ∧ ((∃ i j : Fin rs.length, i ≠ j ∧
          cellOf kills fears (rs.get i) = cellOf kills fears (rs.get j)) →
        aggregateEmit kills fears rs = none) := by
  have hdistinct : ∀ g, aggregate kills fears rs = Except.ok g →
      ∀ i j : Fin rs.length, i ≠ j →
        cellOf kills fears (rs.get i) ≠ cellOf kills fears (rs.get j) := by
    intro g hok i j hij
    have hpair := (aggFrom_ok_cells kills fears rs g emptyGrid hok).1
    rcases lt_or_gt_of_ne (Fin.val_ne_of_ne hij) with hlt | hgt
    · exact List.pairwise_iff_get.mp hpair i j hlt
    · exact (List.pairwise_iff_get.mp hpair j i hgt).symm
  refine ⟨?_, hdistinct, ?_⟩
  · intro g r h
    simp only [processOne]
    rw [if_pos h]
  · rintro ⟨i, j, hij, heq⟩
    cases hagg : aggregate kills fears rs with
    | error e => simp [aggregateEmit, hagg, Except.toOption]
    | ok g => exact absurd heq (hdistinct g hagg i j hij)

/-- C9 witness: two copies of the same result map to the same cell; the
aggregator emits nothing. -/
theorem claim_C9_witness :
    aggregateEmit [4, 5] [10, 20]
      [⟨[0, 1], [1, 1], [0, 0], 4, 10⟩, ⟨[0, 1], [1, 1], [0, 0], 4, 10⟩] = none := by
  exact (claim_C9_collision [4, 5] [10, 20]
      [⟨[0, 1], [1, 1], [0, 0], 4, 10⟩, ⟨[0, 1], [1, 1], [0, 0], 4, 10⟩]).2.2
    ⟨⟨0, by norm_num⟩, ⟨1, by norm_num⟩, by simp [Fin.ext_iff], rfl⟩

/-! ## Scheduler (sz_ddft_phasediagram.py lines 37-114) -/

/-- The output directory as a completion log: job id to optional result-file
contents (`{job_id}.npz`). -/
def FS : Type := ℕ → Option RunRes

def emptyFS : FS := fun _ => none

def writeFS (fs : FS) (jid : ℕ) (r : RunRes) : FS :=
  fun j => if j = jid then some r else fs j

def skipMessage : String := "Skipping job (data already present)"

def runMessage : String := "Running job..."

/-- `run_job` (lines 40-103): the existence check of lines 48-51 drives only
the printed message; the simulation and the `np.savez` write (line 102) are
unconditional.  The opaque solver loop is `sim`; an exception raised there
propagates before anything is written. -/
def run_job (sim : ℕ → ℚ → ℚ → Except Unit RunRes) (fs : FS) (jid : ℕ)
    (kill fear : ℚ) : Except Unit (String × FS) :=
  let msg := if (fs jid).isSome then skipMessage else runMessage
  (sim jid kill fear).map (fun r => (msg, writeFS fs jid r))

/-- Outcome of the `joblib.Parallel` batch: final directory state, ids of
jobs whose simulation was started, and the first uncaught job error (which,
under joblib's default policy, aborts dispatch of the jobs queued after
it). -/
structure DispatchOut where
  fs : FS
  executed : List ℕ
  failed : Option ℕ

/-- The dispatch of line 114 in dispatch order; no error handling wraps the
jobs, so the first failing `run_job` aborts the batch with its exception. -/
def dispatchSeq (sim : ℕ → ℚ → ℚ → Except Unit RunRes) :
    List (ℕ × ℚ × ℚ) → FS → DispatchOut
  | [], fs => ⟨fs, [], none⟩
  | (jid, kill, fear) :: rest, fs =>
    match run_job sim fs jid kill fear with
    | Except.error _ => ⟨fs, [jid], some jid⟩
    | Except.ok (_, fs2) =>
      let out := dispatchSeq sim rest fs2
      ⟨out.fs, jid :: out.executed, out.failed⟩

/-- Pending-job collection (lines 105-109): only jobs without a result file
at collection time are queued. -/
def pendingJobs (fs : FS) (jobs : List (ℕ × ℚ × ℚ)) : List (ℕ × ℚ × ℚ) :=
  jobs.filter (fun j => (fs j.1).isNone)

def runScheduler (sim : ℕ → ℚ → ℚ → Except Unit RunRes) (jobs : List (ℕ × ℚ × ℚ))
    (fs : FS) : DispatchOut :=
  dispatchSeq sim (pendingJobs fs jobs) fs

lemma dispatchSeq_all_ok (sim : ℕ → ℚ → ℚ → Except Unit RunRes)
    (hok : ∀ jid kill fear, ∃ r, sim jid kill fear = Except.ok r) :
    ∀ (L : List (ℕ × ℚ × ℚ)) (fs : FS),
      (dispatchSeq sim L fs).executed = L.map (fun j => j.1)
      ∧ (dispatchSeq sim L fs).failed = none
      ∧ ∀ jid, jid ∉ L.map (fun j => j.1) → (dispatchSeq sim L fs).fs jid = fs jid := by
  intro L
  induction L with
  | nil => exact fun fs => ⟨rfl, rfl, fun jid _ => rfl⟩
  | cons a rest ih =>
    intro fs
    obtain ⟨jid, kill, fear⟩ := a
    obtain ⟨r, hr⟩ := hok jid kill fear
    have hrj : run_job sim fs jid kill fear
        = Except.ok ((if (fs jid).isSome then skipMessage else runMessage),
            writeFS fs jid r) := by
      simp only [run_job, hr, Except.map]
    have hd : dispatchSeq sim ((jid, kill, fear) :: rest) fs
        = ⟨(dispatchSeq sim rest (writeFS fs jid r)).fs,
            jid :: (dispatchSeq sim rest (writeFS fs jid r)).executed,
            (dispatchSeq sim rest (writeFS fs jid r)).failed⟩ := by
      rw [dispatchSeq, hrj]
    obtain ⟨he, hf, hfs⟩ := ih (writeFS fs jid r)
    rw [hd]
    refine ⟨?_, hf, ?_⟩
    · simp [he]
    · intro p hp
      simp only [List.map_cons, List.mem_cons] at hp
      push_neg at hp
      obtain ⟨hp1, hp2⟩ := hp
      rw [hfs p hp2]
      simp [writeFS, hp1]

/-- C4: a rerun executes exactly the jobs whose result file is absent at
collection time (in table order), completes with no failure, and leaves
every already-present result file untouched. -/
theorem claim_C4_idempotent_rerun (sim : ℕ → ℚ → ℚ → Except Unit RunRes)
    (jobs : List (ℕ × ℚ × ℚ)) (fs : FS)
    (hok : ∀ jid kill fear, ∃ r, sim jid kill fear = Except.ok r) :
    (runScheduler sim jobs fs).executed
        = (jobs.filter (fun j => (fs j.1).isNone)).map (fun j => j.1)
    ∧ (runScheduler sim jobs fs).failed = none
    ∧ ∀ jid r, fs jid = some r → (runScheduler sim jobs fs).fs jid = some r := by
  obtain ⟨he, hf, hfs⟩ := dispatchSeq_all_ok sim hok (pendingJobs fs jobs) fs
  refine ⟨he, hf, ?_⟩
  intro jid r hjr
  have hnotin : jid ∉ (pendingJobs fs jobs).map (fun j => j.1) := by
    intro hmem
    obtain ⟨j, hj_mem, hj1⟩ := List.mem_map.mp hmem
    have hj_none := (List.mem_filter.mp hj_mem).2
    rw [hj1, hjr] at hj_none
    simp at hj_none
  rw [runScheduler, hfs jid hnotin, hjr]

/-- Concrete table: five jobs. -/
def jobsC4 : List (ℕ × ℚ × ℚ) := [(1, 0, 0), (2, 0, 0), (3, 0, 0), (4, 0, 0), (5, 0, 0)]

/-- Result file already present for job 3. -/
def resOld : RunRes := ⟨[0], [2], [0], 0, 0⟩

def fsC4 : FS := fun j => if j = 3 then some resOld else none

/-- Simulation that always succeeds. -/
def simOk : ℕ → ℚ → ℚ → Except Unit RunRes :=
  fun _ kill fear => Except.ok ⟨[0], [1], [0], kill, fear⟩

/-- C4 witness: with job 3 of 5 already present, only jobs 1, 2, 4, 5 are
executed and job 3's file is byte-identical afterwards. -/
theorem claim_C4_witness :
    (runScheduler simOk jobsC4 fsC4).executed = [1, 2, 4, 5]
    ∧ (runScheduler simOk jobsC4 fsC4).fs 3 = some resOld := by
  have h := claim_C4_idempotent_rerun simOk jobsC4 fsC4
    (fun jid kill fear => ⟨⟨[0], [1], [0], kill, fear⟩, rfl⟩)
  refine ⟨h.1.trans ?_, h.2.2 3 resOld rfl⟩
  simp [jobsC4, fsC4]

/-- C10: whether the result file already exists changes only the printed
notice (skip vs. run); in both cases `run_job` runs the full simulation and
unconditionally (over)writes the result file with the fresh simulation
output. -/
theorem claim_C10_skip_message_only (sim : ℕ → ℚ → ℚ → Except Unit RunRes)
    (fs : FS) (jid : ℕ) (kill fear : ℚ) (r : RunRes)
    (hsim : sim jid kill fear = Except.ok r) :
    (∀ c, fs jid = some c →
      run_job sim fs jid kill fear = Except.ok (skipMessage, writeFS fs jid r))
    ∧ (fs jid = none →
      run_job sim fs jid kill fear = Except.ok (runMessage, writeFS fs jid r))
    ∧ writeFS fs jid r jid = some r := by
  refine ⟨?_, ?_, ?_⟩
  · intro c hc
    simp only [run_job, hsim, Except.map]
    rw [if_pos (by rw [hc]; rfl)]
  · intro hc
    simp only [run_job, hsim, Except.map]
    rw [if_neg (by rw [hc]; simp)]
  · simp [writeFS]

/-- C10 witness: job 3's file exists, yet `run_job` prints the skip notice
and overwrites the file with the new simulation result. -/
theorem claim_C10_witness :
    run_job simOk fsC4 3 0 0 = Except.ok (skipMessage, writeFS fsC4 3 ⟨[0], [1], [0], 0, 0⟩)
    ∧ writeFS fsC4 3 ⟨[0], [1], [0], 0, 0⟩ 3 = some ⟨[0], [1], [0], 0, 0⟩ := by
  have h := claim_C10_skip_message_only simOk fsC4 3 0 0 ⟨[0], [1], [0], 0, 0⟩ rfl
  exact ⟨h.1 resOld rfl, h.2.2⟩

/-- Simulation raising `SimulationFailed` for job 1 and succeeding
elsewhere. -/
def simFailFirst : ℕ → ℚ → ℚ → Except Unit RunRes :=
  fun jid _ _ => if jid = 1 then Except.error () else Except.ok ⟨[0], [1], [0], 0, 0⟩

/-- C7 counterexample: with pending jobs 1 and 2 and job 1 failing, the
batch aborts with an uncaught error: job 2 is never executed, its result is
not persisted (even though its simulation would succeed), and no per-job
failure list exists — refuting the claim that siblings still run to
completion with all successful results persisted. -/
theorem claim_C7_counterexample :
    (runScheduler simFailFirst [(1, 0, 0), (2, 0, 0)] emptyFS).failed = some 1
    ∧ (runScheduler simFailFirst [(1, 0, 0), (2, 0, 0)] emptyFS).executed = [1]
    ∧ (runScheduler simFailFirst [(1, 0, 0), (2, 0, 0)] emptyFS).fs 2 = none
    ∧ simFailFirst 2 0 0 = Except.ok ⟨[0], [1], [0], 0, 0⟩ := by
  exact ⟨rfl, rfl, rfl, rfl⟩

/-- C7 amended: the first failing job aborts the batch at that point: jobs
dispatched before it run and persist their results, the failing job is the
uncaught error the process dies with (a non-zero exit via the exception, not
a per-job failure report), jobs queued after it never run, and files not
written by the earlier jobs are untouched. -/
theorem claim_C7_amended (sim : ℕ → ℚ → ℚ → Except Unit RunRes)
    (pre post : List (ℕ × ℚ × ℚ)) (j : ℕ) (kill fear : ℚ) (fs : FS)
    (hpre : ∀ a ∈ pre, ∃ r, sim a.1 a.2.1 a.2.2 = Except.ok r)
    (hj : sim j kill fear = Except.error ()) :
    (dispatchSeq sim (pre ++ (j, kill, fear) :: post) fs).failed = some j
    ∧ (dispatchSeq sim (pre ++ (j, kill, fear) :: post) fs).executed
        = pre.map (fun a => a.1) ++ [j]
    ∧ ∀ p, p ∉ pre.map (fun a => a.1) →
        (dispatchSeq sim (pre ++ (j, kill, fear) :: post) fs).fs p = fs p := by
  revert hpre
  induction pre generalizing fs with
  | nil =>
    intro _
    have hrj : run_job sim fs j kill fear = Except.error () := by
      simp only [run_job, hj, Except.map]
    have hd : dispatchSeq sim ([] ++ (j, kill, fear) :: post) fs = ⟨fs, [j], some j⟩ := by
      rw [List.nil_append, dispatchSeq, hrj]
    rw [hd]
    exact ⟨rfl, rfl, fun p _ => rfl⟩
  | cons a pre ih =>
    intro hpre
    obtain ⟨jid0, kill0, fear0⟩ := a
    obtain ⟨r, hr⟩ := hpre (jid0, kill0, fear0) (List.mem_cons_self _ _)
    have hpre2 : ∀ b ∈ pre, ∃ r2, sim b.1 b.2.1 b.2.2 = Except.ok r2 :=
      fun b hb => hpre b (List.mem_cons_of_mem _ hb)
    have hrj : run_job sim fs jid0 kill0 fear0
        = Except.ok ((if (fs jid0).isSome then skipMessage else runMessage),
            writeFS fs jid0 r) := by
      simp only [run_job, hr, Except.map]
    have hd : dispatchSeq sim (((jid0, kill0, fear0) :: pre) ++ (j, kill, fear) :: post) fs
        = ⟨(dispatchSeq sim (pre ++ (j, kill, fear) :: post) (writeFS fs jid0 r)).fs,
            jid0 :: (dispatchSeq sim (pre ++ (j, kill, fear) :: post)
              (writeFS fs jid0 r)).executed,
            (dispatchSeq sim (pre ++ (j, kill, fear) :: post) (writeFS fs jid0 r)).failed⟩ := by
      rw [List.cons_append, dispatchSeq, hrj]
    obtain ⟨hf, he, hfs⟩ := ih (writeFS fs jid0 r) hpre2
    rw [hd]
    refine ⟨hf, ?_, ?_⟩
    · simp [he]
    · intro p hp
      simp only [List.map_cons, List.mem_cons] at hp
      push_neg at hp
      obtain ⟨hp1, hp2⟩ := hp
      rw [hfs p hp2]
      simp [writeFS, hp1]

/-- C7 amended witness: job 2 before the failing job 1 runs and persists;
job 3 queued after never runs. -/
theorem claim_C7_witness :
    (dispatchSeq simFailFirst [(2, 0, 0), (1, 0, 0), (3, 0, 0)] emptyFS).failed = some 1
    ∧ (dispatchSeq simFailFirst [(2, 0, 0), (1, 0, 0), (3, 0, 0)] emptyFS).executed
        = [2, 1] := by
  have h := claim_C7_amended simFailFirst [(2, 0, 0)] [(3, 0, 0)] 1 0 0 emptyFS
    (by
      intro a ha
      rcases List.mem_singleton.mp ha with rfl
      exact ⟨⟨[0], [1], [0], 0, 0⟩, rfl⟩)
    rfl
  exact ⟨h.1, h.2.1⟩

/-! ## Result write discipline (line 102): `np.savez` directly to the final
path -/

inductive FsOp where
  | write : String → FsOp
  | rename : String → String → FsOp
deriving DecidableEq

/-- `job_result_path` (lines 37-38). -/
def job_result_path (outdir : String) (jid : ℕ) : String :=
  outdir ++ "/" ++ toString jid ++ ".npz"

/-- Path-level operations `run_job` performs to save its result (line 102):
a single direct `np.savez` to the final path — no temporary file, no
rename. -/
def runJobSaveOps (outdir : String) (jid : ℕ) : List FsOp :=
  [FsOp.write (job_result_path outdir jid)]

/-- A write-to-temp-then-rename trace targeting `finalPath`. -/
def atomicTempRename (ops : List FsOp) (finalPath : String) : Prop :=
  ∃ tmp, tmp ≠ finalPath ∧ ops = [FsOp.write tmp, FsOp.rename tmp finalPath]

/-- States of the result file visible to a concurrent reader while the
direct write streams the archive contents `c`: absent before the write
starts, then each partial content `c.take n` as bytes land in the
destination file (the destination is opened and filled in place). -/
def saveObservable (c : List ℚ) : List (Option (List ℚ)) :=
  none :: (List.range (c.length + 1)).map (fun n => some (c.take n))

/-- C6 counterexample: the save trace is not of write-to-temp-then-rename
form, and during the direct write a reader can observe a state in which the
file is present but holds only part of the final contents — refuting
"fully absent or fully present". -/
theorem claim_C6_counterexample :
    ¬ atomicTempRename (runJobSaveOps "out" 7) (job_result_path "out" 7)
    ∧ some [(1 : ℚ)] ∈ saveObservable [1, 2]
    ∧ some [(1 : ℚ)] ≠ (none : Option (List ℚ))
    ∧ some [(1 : ℚ)] ≠ some [1, 2] := by
  refine ⟨?_, by decide, by decide, by decide⟩
  rintro ⟨tmp, hne, heq⟩
  simp [runJobSaveOps] at heq

/-- C6 amended: each job saves with one plain write directly to the final
result path (no temporary file and no rename), so the observable
intermediate states of the file are exactly: absent, or present with a
prefix of the final contents; the final contents do become observable at the
end. -/
theorem claim_C6_amended (outdir : String) (jid : ℕ) (c : List ℚ) :
    ¬ atomicTempRename (runJobSaveOps outdir jid) (job_result_path outdir jid)
    ∧ (∀ s ∈ saveObservable c, s = none ∨ ∃ n, n ≤ c.length ∧ s = some (c.take n))
    ∧ some c ∈ saveObservable c := by
  refine ⟨?_, ?_, ?_⟩
  · rintro ⟨tmp, hne, heq⟩
    simp [runJobSaveOps] at heq
  · intro s hs
    simp only [saveObservable, List.mem_cons, List.mem_map, List.mem_range] at hs
    rcases hs with rfl | ⟨n, hn, rfl⟩
    · exact Or.inl rfl
    · exact Or.inr ⟨n, by omega, rfl⟩
  · have hc : some c = some (c.take c.length) := by simp
    rw [hc]
    simp only [saveObservable, List.mem_cons]
    exact Or.inr (List.mem_map.mpr ⟨c.length, List.mem_range.mpr (by omega), rfl⟩)

/-- C6 amended witness: the mid-write state `some [1]` of contents `[1, 2]`
is one of the characterized prefix states. -/
theorem claim_C6_witness :
    some [(1 : ℚ)] = (none : Option (List ℚ))
    ∨ ∃ n, n ≤ ([1, 2] : List ℚ).length ∧ some [(1 : ℚ)] = some (([1, 2] : List ℚ).take n) := by
  exact (claim_C6_amended "out" 7 [1, 2]).2.1 (some [1]) (by decide)

/-! ## Job-table load (sz_ddft_phasediagram.py lines 15-35) -/

/-- The scheduler's command-line arguments (lines 15-21). -/
structure SchedArgs where
  jobfile : String
  outdir : String

/-- The path the scheduler opens for its job table: the hardcoded literal
`'phasediagram_jobs.csv'` of line 25.  `args.jobfile` (declared on line 16)
is never consulted for the load. -/
def schedulerJobTablePath (_ : SchedArgs) : String := "phasediagram_jobs.csv"

/-- The row-reading loop (lines 28-35): each row either parses as
`(int, float, float)` or raises `ValueError` (modelled as a `none` row
aborting the load); the asserts of lines 33-34 abort on a duplicate
parameter pair or duplicate job id. -/
def loadJobTable : List (Option (ℤ × ℚ × ℚ)) → List (ℤ × ℚ × ℚ) →
    Option (List (ℤ × ℚ × ℚ))
  | [], acc => some acc
  | none :: _, _ => none
  | some (jid, kill, fear) :: rest, acc =>
    if (kill, fear) ∈ acc.map (fun x => x.2) then none
    else if jid ∈ acc.map (fun x => x.1) then none
    else loadJobTable rest (acc ++ [(jid, kill, fear)])

/-- File contents: parsed rows (header already dropped) at each path. -/
def RowEnv : Type := String → List (Option (ℤ × ℚ × ℚ))

/-- The job table the scheduler actually loads when invoked with `args`. -/
def schedulerLoadedTable (env : RowEnv) (args : SchedArgs) :
    Option (List (ℤ × ℚ × ℚ)) :=
  loadJobTable (env (schedulerJobTablePath args)) []

/-- Environment in which the hardcoded file and the supplied jobfile have
different rows. -/
def envC8 : RowEnv := fun p =>
  if p = "phasediagram_jobs.csv" then [some (1, 2, 3)]
  else if p = "myjobs.csv" then [some (7, 8, 9)] else []

/-- C8 (code bug): for every invocation the scheduler reads the fixed file
`phasediagram_jobs.csv`, not the supplied jobfile argument; with
`jobfile = "myjobs.csv"` the loaded triples are those of the fixed file and
differ from the supplied file's rows.  The unparsable-row half of the claim
does hold: a row that fails to parse aborts the load. -/
theorem claim_C8_code_bug :
    (∀ args : SchedArgs, schedulerJobTablePath args = "phasediagram_jobs.csv")
    ∧ schedulerLoadedTable envC8 ⟨"myjobs.csv", "out"⟩ = some [(1, 2, 3)]
    ∧ loadJobTable (envC8 (SchedArgs.mk "myjobs.csv" "out").jobfile) [] = some [(7, 8, 9)]
    ∧ schedulerLoadedTable envC8 ⟨"myjobs.csv", "out"⟩
        ≠ loadJobTable (envC8 (SchedArgs.mk "myjobs.csv" "out").jobfile) []
    ∧ loadJobTable [some (1, 2, 3), none] [] = none := by
  exact ⟨fun _ => rfl, by decide, by decide, by decide, by decide⟩

/-! ## Simulation driver (sz_ddft_phasediagram.py lines 53-99) -/

/-- One recorded snapshot (`store_result`, lines 85-89): elapsed time and
the grid totals of `S` and `Z`. -/
structure Snap where
  time : ℚ
  Stot : ℚ
  Ztot : ℚ
deriving DecidableEq

/-- `DT = 0.05` (line 62). -/
def DT : ℚ := 5 / 100

/-- `MIN_TIME = 5` (line 63). -/
def MIN_TIME : ℚ := 5

/-- `TIMEOUT = 2000` (line 64). -/
def TIMEOUT : ℚ := 2000

/-- `THRESHOLD = 5e-4` (line 65). -/
def DRIVER_THRESHOLD : ℚ := 5 / 10000

/-- The loop's normalization constant `(N*N) * MEAN_DENSITY` (lines 55-56,
93-94): the run's nominal total initial population. -/
def DRIVER_NORM : ℚ := 256 * 256 * (25 / 100)

/-- Snapshot after `k` solver advances: each loop iteration calls
`add_time(DT); integrate()`, so the stepper reports time `k · Δt`; the
opaque solver state yields totals `pop k`. -/
def snapAt (pop : ℕ → ℚ × ℚ) (dt : ℚ) (k : ℕ) : Snap :=
  ⟨k * dt, (pop k).1, (pop k).2⟩

/-- The `while` condition of lines 92-95, evaluated on the last recorded
snapshot (Python `or`/`and` on the normalized fractions and times). -/
def loopCond (tmin tmax th norm : ℚ) (s : Snap) : Bool :=
  decide (s.time < tmin)
    || (decide (s.Ztot / norm > th) && decide (s.Stot / norm > th)
        && decide (s.time < tmax))

inductive DriverTag where
  | CONVERGED : DriverTag
  | TIMED_OUT : DriverTag
deriving DecidableEq

/-- Terminal classification implied by the last sample: CONVERGED when a
population fraction has dropped to or below the threshold, TIMED_OUT
otherwise.  (The script does not store a tag; the spec derives it from the
final sample.) -/
def tagOf (th norm : ℚ) (s : Snap) : DriverTag :=
  if s.Stot / norm ≤ th ∨ s.Ztot / norm ≤ th then DriverTag.CONVERGED
  else DriverTag.TIMED_OUT

/-- The stepping loop (lines 89-99): the snapshot at `t = 0` is recorded
first; while the condition holds on the last snapshot, the solver advances
by `Δt` and the next snapshot is appended.  `fuel` bounds the recursion:
`none` in the tag position means fuel ran out with the condition still
true. -/
def driverGo (pop : ℕ → ℚ × ℚ) (dt tmin tmax th norm : ℚ) :
    ℕ → ℕ → List Snap × Option DriverTag
  | 0, k =>
    if loopCond tmin tmax th norm (snapAt pop dt k) then ([snapAt pop dt k], none)
    else ([snapAt pop dt k], some (tagOf th norm (snapAt pop dt k)))
  | fuel + 1, k =>
    if loopCond tmin tmax th norm (snapAt pop dt k) then
      (snapAt pop dt k :: (driverGo pop dt tmin tmax th norm fuel (k + 1)).1,
        (driverGo pop dt tmin tmax th norm fuel (k + 1)).2)
    else ([snapAt pop dt k], some (tagOf th norm (snapAt pop dt k)))

/-- The whole driver run: trajectory from the initial snapshot on. -/
def runDriver (pop : ℕ → ℚ × ℚ) (dt tmin tmax th norm : ℚ) (fuel : ℕ) :
    List Snap × Option DriverTag :=
  driverGo pop dt tmin tmax th norm fuel 0

/-- The snapshots `k, k+1, …, k+m`. -/
def trajFrom (pop : ℕ → ℚ × ℚ) (dt : ℚ) : ℕ → ℕ → List Snap
  | k, 0 => [snapAt pop dt k]
  | k, m + 1 => snapAt pop dt k :: trajFrom pop dt (k + 1) m

lemma trajFrom_length (pop : ℕ → ℚ × ℚ) (dt : ℚ) :
    ∀ m k, (trajFrom pop dt k m).length = m + 1 := by
  intro m
  induction m with
  | zero => intro k; rfl
  | succ m ih =>
    intro k
    simp only [trajFrom, List.length_cons, ih (k + 1)]

lemma trajFrom_head (pop : ℕ → ℚ × ℚ) (dt : ℚ) (k m : ℕ) :
    (trajFrom pop dt k m).head? = some (snapAt pop dt k) := by
  cases m <;> rfl

lemma trajFrom_getElem (pop : ℕ → ℚ × ℚ) (dt : ℚ) :
    ∀ m k i, i ≤ m → (trajFrom pop dt k m)[i]? = some (snapAt pop dt (k + i)) := by
  intro m
  induction m with
  | zero =>
    intro k i hi
    obtain rfl : i = 0 := by omega
    simp [trajFrom]
  | succ m ih =>
    intro k i hi
    cases i with
    | zero => simp [trajFrom]
    | succ i2 =>
      rw [trajFrom, List.getElem?_cons_succ, ih (k + 1) i2 (by omega),
        show k + 1 + i2 = k + (i2 + 1) from by omega]

lemma driverGo_run (pop : ℕ → ℚ × ℚ) (dt tmin tmax th norm : ℚ) :
    ∀ m k fuel, m ≤ fuel →
      (∀ i, i < m → loopCond tmin tmax th norm (snapAt pop dt (k + i)) = true) →
      loopCond tmin tmax th norm (snapAt pop dt (k + m)) = false →
      driverGo pop dt tmin tmax th norm fuel k
        = (trajFrom pop dt k m, some (tagOf th norm (snapAt pop dt (k + m)))) := by
  intro m
  induction m with
  | zero =>
    intro k fuel _ _ hstop
    rw [Nat.add_zero] at hstop
    have hns : ¬ (loopCond tmin tmax th norm (snapAt pop dt k) = true) := by
      simp [hstop]
    cases fuel with
    | zero => rw [driverGo, if_neg hns]; rfl
    | succ f2 => rw [driverGo, if_neg hns]; rfl
  | succ m ih =>
    intro k fuel hfuel hrun hstop
    cases fuel with
    | zero => omega
    | succ f2 =>
      have hcond0 : loopCond tmin tmax th norm (snapAt pop dt k) = true := by
        have := hrun 0 (by omega)
        rwa [Nat.add_zero] at this
      have hout := ih (k + 1) f2 (by omega)
        (by
          intro i hi
          rw [show k + 1 + i = k + (i + 1) from by omega]
          exact hrun (i + 1) (by omega))
        (by
          rw [show k + 1 + m = k + (m + 1) from by omega]
          exact hstop)
      rw [driverGo, if_pos hcond0, hout,
        show k + 1 + m = k + (m + 1) from by omega]
      rfl

/-- C3: the driver records the `t = 0` snapshot as the first trajectory
point, then appends one snapshot per fixed `Δt` advance; when `m` is the
first step at which the loop condition fails, the trajectory is exactly the
snapshots `0 … m` and the terminal tag is implied by the last sample:
CONVERGED iff a fraction has dropped to or below `θ` (and then
`t_min ≤ time`), TIMED_OUT only with both fractions above `θ` and
`time ≥ t_max`. -/
theorem claim_C3_simulation_driver (pop : ℕ → ℚ × ℚ) (dt tmin tmax th norm : ℚ)
    (m fuel : ℕ) (hfuel : m ≤ fuel)
    (hrun : ∀ i, i < m → loopCond tmin tmax th norm (snapAt pop dt i) = true)
    (hstop : loopCond tmin tmax th norm (snapAt pop dt m) = false) :
    (runDriver pop dt tmin tmax th norm fuel).1.head? = some (snapAt pop dt 0)
    ∧ (snapAt pop dt 0).time = 0
    ∧ (∀ k, (snapAt pop dt (k + 1)).time = (snapAt pop dt k).time + dt)
    ∧ (runDriver pop dt tmin tmax th norm fuel).1.length = m + 1
    ∧ (∀ i, i ≤ m →
        (runDriver pop dt tmin tmax th norm fuel).1[i]? = some (snapAt pop dt i))
    ∧ (runDriver pop dt tmin tmax th norm fuel).2
        = some (tagOf th norm (snapAt pop dt m))
    ∧ tmin ≤ (snapAt pop dt m).time
    ∧ (tagOf th norm (snapAt pop dt m) = DriverTag.CONVERGED ↔
        ((snapAt pop dt m).Stot / norm ≤ th ∨ (snapAt pop dt m).Ztot / norm ≤ th))
    ∧ (tagOf th norm (snapAt pop dt m) = DriverTag.TIMED_OUT →
        tmax ≤ (snapAt pop dt m).time
        ∧ th < (snapAt pop dt m).Stot / norm ∧ th < (snapAt pop dt m).Ztot / norm) := by
  have hgo := driverGo_run pop dt tmin tmax th norm m 0 fuel hfuel
    (by intro i hi; rw [Nat.zero_add]; exact hrun i hi)
    (by rw [Nat.zero_add]; exact hstop)
  have hrd : runDriver pop dt tmin tmax th norm fuel
      = (trajFrom pop dt 0 m, some (tagOf th norm (snapAt pop dt m))) := by
    rw [runDriver, hgo, Nat.zero_add]
  have hnotmin : ¬ ((snapAt pop dt m).time < tmin) := by
    intro h
    simp [loopCond, h] at hstop
  have hstop2 : ¬ (th < (snapAt pop dt m).Ztot / norm
      ∧ th < (snapAt pop dt m).Stot / norm ∧ (snapAt pop dt m).time < tmax) := by
    intro h
    simp [loopCond, h.1, h.2.1, h.2.2] at hstop
  refine ⟨?_, ?_, ?_, ?_, ?_, ?_, not_lt.mp hnotmin, ?_, ?_⟩
  · rw [hrd]
    exact trajFrom_head pop dt 0 m
  · simp [snapAt]
  · intro k
    simp only [snapAt]
    push_cast
    ring
  · rw [hrd]
    exact trajFrom_length pop dt m 0
  · intro i hi
    rw [hrd]
    have := trajFrom_getElem pop dt m 0 i hi
    rwa [Nat.zero_add] at this
  · rw [hrd]
  · by_cases hco : (snapAt pop dt m).Stot / norm ≤ th ∨ (snapAt pop dt m).Ztot / norm ≤ th
    · rw [tagOf, if_pos hco]
      exact iff_of_true rfl hco
    · rw [tagOf, if_neg hco]
      exact iff_of_false (by decide) hco
  · intro ht
    by_cases hco : (snapAt pop dt m).Stot / norm ≤ th ∨ (snapAt pop dt m).Ztot / norm ≤ th
    · rw [tagOf, if_pos hco] at ht
      exact absurd ht (by decide)
    · push_neg at hco
      refine ⟨?_, hco.1, hco.2⟩
      by_contra hmax
      exact hstop2 ⟨hco.2, hco.1, not_le.mp hmax⟩

/-- Populations for the driver witness: `S` stays at 1, `Z` drops to 0 at
step 3. -/
def popW : ℕ → ℚ × ℚ := fun k => (1, if k < 3 then 1 else 0)

/-- C3 witness: with `Δt = 1`, `t_min = 1`, `t_max = 10`, `θ = 1/2`,
normalizer 1, the run stops after step 3 with tag CONVERGED and a
4-point trajectory starting at the `t = 0` snapshot. -/
theorem claim_C3_witness :
    (runDriver popW 1 1 10 (1/2) 1 3).1.length = 4
    ∧ (runDriver popW 1 1 10 (1/2) 1 3).2 = some DriverTag.CONVERGED
    ∧ (runDriver popW 1 1 10 (1/2) 1 3).1.head? = some ⟨0, 1, 1⟩ := by
  have h := claim_C3_simulation_driver popW 1 1 10 (1/2) 1 3 3 (le_refl 3)
    (by
      intro i hi
      interval_cases i <;> norm_num [loopCond, snapAt, popW])
    (by norm_num [loopCond, snapAt, popW])
  refine ⟨h.2.2.2.1, ?_, ?_⟩
  · rw [h.2.2.2.2.2.1]
    norm_num [tagOf, snapAt, popW]
  · rw [h.1]
    norm_num [snapAt, popW]

end SZScan
